import Mathlib

/-!
Verification of `src/bifextraction/batch_pubmed_claude_multiagent.py`.

Shallow embedding: the network-facing primitives (`esearch_count`, the
Claude API calls, `requests.get`, `resolve_text_for_pmid`, …) are
abstracted as oracle functions supplied by the environment; the control
flow of the Python functions (`plan_shards`, `eutils_get`,
`claude_extract_multiagent`, the `main` crawl loop, `count_rows`) is
translated statement by statement.  Machine integers are `Int`/`Nat`;
Python's floor division `//` is `Int.fdiv`.
-/

namespace BifExtraction

/-! ## Shard planner (`plan_shards`, lines 204-219)

`split(y0, y1)` asks the count oracle for the number of hits in the
inclusive year range `[y0, y1]`; if the count is within `cap` (or the
midpoint `(y0+y1)//2` equals `y0`, which happens exactly when
`y1 ≤ y0+1`) it emits a single leaf, otherwise it recurses on the two
halves and concatenates.  The Python recursion diverges when
`y0 > y1` and the count stays above `cap`, so the embedding carries a
recursion-depth budget `fuel`; for `y0 ≤ y1` a budget of
`(y1 - y0).toNat + 1` always suffices (each recursive call strictly
shrinks the range), which is what `plan_shards` supplies. -/

/-- A shard `(start_year, end_year, estimated_count)`. -/
abbrev Shard := Int × Int × Nat

/-- The inner `split` recursion of `plan_shards`, with the count oracle
abstracted and an explicit recursion-depth budget.  `none` means the
budget ran out (only possible for invalid ranges `y0 > y1`). -/
def split (count : Int → Int → Nat) (cap : Nat) : Nat → Int → Int → Option (List Shard)
  | 0, _, _ => none
  | fuel+1, y0, y1 =>
    let c := count y0 y1
    if c ≤ cap then some [(y0, y1, c)]
    else
      let mid := Int.fdiv (y0 + y1) 2
      if mid = y0 then some [(y0, y1, c)]
      else
        match split count cap fuel y0 mid, split count cap fuel (mid + 1) y1 with
        | some l, some r => some (l ++ r)
        | _, _ => none

/-- `plan_shards(query, email, api_key, start_year, end_year, cap)`:
the `query`/`email`/`api_key` triple only parameterises the count
oracle, so the embedding takes the oracle directly. -/
def plan_shards (count : Int → Int → Nat) (cap : Nat) (start_year end_year : Int) :
    Option (List Shard) :=
  split count cap ((end_year - start_year).toNat + 1) start_year end_year

/-- `contiguousCover s e l`: the shards of `l` tile the inclusive range
`[s, e]` exactly, left to right: the first shard starts at `s`, each
following shard starts one year after the previous shard ends, and the
last shard ends at `e`. -/
def contiguousCover (s e : Int) : List Shard → Bool
  | [] => decide (s = e + 1)
  | (a, b, _) :: rest => decide (a = s) && contiguousCover (b + 1) e rest

/-- Count oracle for the two-year failing input: `[2000, 2001]` holds
150 hits (over a cap of 100), each single year under 100. -/
def twoYearCount : Int → Int → Nat := fun y0 y1 =>
  if y0 = 2000 ∧ y1 = 2001 then 150
  else if y0 = 2000 ∧ y1 = 2000 then 80
  else if y0 = 2001 ∧ y1 = 2001 then 60
  else 0

/-- Count oracle of the spec's four-year scenario:
`2000-2003: 250, 2000-2001: 150, 2002-2003: 90, 2000: 80, 2001: 60`. -/
def scenarioCount : Int → Int → Nat := fun y0 y1 =>
  if y0 = 2000 ∧ y1 = 2003 then 250
  else if y0 = 2000 ∧ y1 = 2001 then 150
  else if y0 = 2002 ∧ y1 = 2003 then 90
  else if y0 = 2000 ∧ y1 = 2000 then 80
  else if y0 = 2001 ∧ y1 = 2001 then 60
  else 0

/-- C1: the claim says only single-year leaves may exceed the cap, but
on the range `[2000, 2001]` with 150 hits and `cap = 100` the guard
`mid == y0` fires (because `(2000+2001)//2 = 2000`) and `plan_shards`
emits the two-year shard `(2000, 2001, 150)` as a leaf: a shard with
`y0 ≠ y1` whose count exceeds the cap, even though both halves are
under the cap and the docstring promises "shards with <= cap hits
each". -/
theorem plan_shards_two_year_leaf_over_cap :
    plan_shards twoYearCount 100 2000 2001 = some [(2000, 2001, 150)] ∧
    (2000 : Int) ≠ 2001 ∧ 100 < 150 := by
  refine ⟨?_, by decide, by decide⟩
  rfl

/-- C2: on the spec's scenario oracle with `cap = 100`, the code does
not bisect the over-cap range `[2000, 2001]` (the `mid == y0` guard
stops it): it returns `[(2000,2001,150), (2002,2003,90)]`, not the
three leaves `[(2000,2000,80), (2001,2001,60), (2002,2003,90)]` the
spec requires. -/
theorem plan_shards_scenario_no_bisect :
    plan_shards scenarioCount 100 2000 2003 = some [(2000, 2001, 150), (2002, 2003, 90)] ∧
    some [((2000 : Int), (2001 : Int), (150 : Nat)), (2002, 2003, 90)] ≠
      some [((2000 : Int), (2000 : Int), (80 : Nat)), (2001, 2001, 60), (2002, 2003, 90)] := by
  refine ⟨?_, by decide⟩
  rfl

/-- When the planner takes the bisection branch (`mid ≠ y0` on a valid
range), the midpoint lies strictly inside the range. -/
theorem mid_bounds {y0 y1 : Int} (hle : y0 ≤ y1) (hm : Int.fdiv (y0 + y1) 2 ≠ y0) :
    y0 ≤ Int.fdiv (y0 + y1) 2 ∧ Int.fdiv (y0 + y1) 2 < y1 := by
  have h : Int.fdiv (y0 + y1) 2 = (y0 + y1) / 2 :=
    Int.fdiv_eq_ediv _ (by norm_num)
  rw [h] at hm ⊢
  omega

/-- Gluing two contiguous tilings of adjacent ranges. -/
theorem contiguousCover_append {s m e : Int} {l₁ l₂ : List Shard}
    (h₁ : contiguousCover s m l₁ = true) (h₂ : contiguousCover (m + 1) e l₂ = true) :
    contiguousCover s e (l₁ ++ l₂) = true := by
  induction l₁ generalizing s with
  | nil =>
    simp only [contiguousCover, decide_eq_true_eq] at h₁
    subst h₁
    simpa using h₂
  | cons x rest ih =>
    obtain ⟨a, b, c⟩ := x
    simp only [contiguousCover, List.cons_append, Bool.and_eq_true, decide_eq_true_eq] at h₁ ⊢
    exact ⟨h₁.1, ih h₁.2⟩

/-- In a contiguous tiling of `[s, e]` by well-formed shards, every
shard starts at or after `s`. -/
theorem contiguousCover_start_le {s e : Int} {l : List Shard}
    (h : contiguousCover s e l = true) (hwf : ∀ x ∈ l, x.1 ≤ x.2.1) :
    ∀ x ∈ l, s ≤ x.1 := by
  induction l generalizing s with
  | nil => intro x hx; simp at hx
  | cons y rest ih =>
    obtain ⟨a, b, c⟩ := y
    simp only [contiguousCover, Bool.and_eq_true, decide_eq_true_eq] at h
    intro x hx
    rcases List.mem_cons.1 hx with rfl | hx
    · simp [h.1]
    · have hab : a ≤ b := by
        have := hwf (a, b, c) (List.mem_cons_self _ _)
        simpa using this
      have := ih h.2 (fun z hz => hwf z (List.mem_cons_of_mem _ hz)) x hx
      omega

/-- A contiguous tiling by well-formed shards has strictly increasing
start years (hence it is sorted and the shards are non-overlapping). -/
theorem contiguousCover_pairwise {s e : Int} {l : List Shard}
    (h : contiguousCover s e l = true) (hwf : ∀ x ∈ l, x.1 ≤ x.2.1) :
    l.Pairwise (fun x y => x.1 < y.1) := by
  induction l generalizing s with
  | nil => simp
  | cons y rest ih =>
    obtain ⟨a, b, c⟩ := y
    simp only [contiguousCover, Bool.and_eq_true, decide_eq_true_eq] at h
    have hwf' : ∀ z ∈ rest, z.1 ≤ z.2.1 := fun z hz => hwf z (List.mem_cons_of_mem _ hz)
    refine List.Pairwise.cons ?_ (ih h.2 hwf')
    intro x hx
    have hb1 := contiguousCover_start_le h.2 hwf' x hx
    have hab : a ≤ b := by
      have := hwf (a, b, c) (List.mem_cons_self _ _)
      simpa using this
    show a < x.1
    omega

/-- On a valid range, with enough recursion budget, `split` succeeds
and its output tiles the range contiguously with well-formed shards. -/
theorem split_sound (count : Int → Int → Nat) (cap : Nat) :
    ∀ (fuel : Nat) (y0 y1 : Int), y0 ≤ y1 → (y1 - y0).toNat < fuel →
    ∃ l, split count cap fuel y0 y1 = some l ∧
      contiguousCover y0 y1 l = true ∧ ∀ x ∈ l, x.1 ≤ x.2.1 := by
  intro fuel
  induction fuel with
  | zero => intro y0 y1 _ h; exact absurd h (by omega)
  | succ n ih =>
    intro y0 y1 hle hfuel
    by_cases hc : count y0 y1 ≤ cap
    · refine ⟨[(y0, y1, count y0 y1)], by simp [split, hc], ?_, ?_⟩
      · simp [contiguousCover]
      · intro x hx
        simp only [List.mem_singleton] at hx
        subst hx
        exact hle
    · by_cases hm : Int.fdiv (y0 + y1) 2 = y0
      · refine ⟨[(y0, y1, count y0 y1)], by simp [split, hc, hm], ?_, ?_⟩
        · simp [contiguousCover]
        · intro x hx
          simp only [List.mem_singleton] at hx
          subst hx
          exact hle
      · obtain ⟨hb1, hb2⟩ := mid_bounds hle hm
        obtain ⟨l₁, e₁, c₁, w₁⟩ := ih y0 (Int.fdiv (y0 + y1) 2) hb1 (by omega)
        obtain ⟨l₂, e₂, c₂, w₂⟩ := ih (Int.fdiv (y0 + y1) 2 + 1) y1 (by omega) (by omega)
        refine ⟨l₁ ++ l₂, ?_, contiguousCover_append c₁ c₂, ?_⟩
        · simp [split, hc, hm, e₁, e₂]
        · intro x hx
          rcases List.mem_append.1 hx with h | h
          exacts [w₁ x h, w₂ x h]

/-- C3: for every count oracle, cap and valid range
`start_year ≤ end_year`, the shard list returned by `plan_shards` is
contiguous (each shard starts one year after the previous one ends),
covers `[start_year, end_year]` exactly (first starts at `start_year`,
last ends at `end_year` — this is `contiguousCover`), every shard is
well-formed (`y0 ≤ y1`), and start years are strictly increasing, so
the list is sorted ascending and the shards are non-overlapping. -/
theorem plan_shards_contiguous (count : Int → Int → Nat) (cap : Nat) (s e : Int)
    (l : List Shard) (hle : s ≤ e) (h : plan_shards count cap s e = some l) :
    contiguousCover s e l = true ∧ (∀ x ∈ l, x.1 ≤ x.2.1) ∧
    l.Pairwise (fun x y => x.1 < y.1) := by
  obtain ⟨l', e', c', w'⟩ := split_sound count cap ((e - s).toNat + 1) s e hle (by omega)
  rw [plan_shards, e'] at h
  obtain rfl : l' = l := Option.some.inj h
  exact ⟨c', w', contiguousCover_pairwise c' w'⟩

/-- A constant count oracle, for concrete instantiations. -/
def constCount : Int → Int → Nat := fun _ _ => 7

/-- Witness for C3: on the oracle that always reports 7 hits with
`cap = 10`, `plan_shards` over `[2000, 2003]` returns the single shard
`(2000, 2003, 7)`, and the theorem's conclusions hold for it. -/
theorem plan_shards_contiguous_witness :
    contiguousCover 2000 2003 [((2000 : Int), (2003 : Int), (7 : Nat))] = true ∧
    (∀ x ∈ [((2000 : Int), (2003 : Int), (7 : Nat))], x.1 ≤ x.2.1) ∧
    List.Pairwise (fun x y : Shard => x.1 < y.1) [((2000 : Int), (2003 : Int), (7 : Nat))] :=
  plan_shards_contiguous constCount 10 2000 2003 _ (by decide) (by rfl)

/-! ## HTTP fetch primitive (`backoff_sleep` lines 23-26, `eutils_get`
lines 28-41)

The transport is an oracle mapping the attempt index to `none` (the
`requests.get` call raised) or `some` response.  The embedding returns
the result together with the number of `backoff_sleep` invocations.
A non-200 status in `{429, 500, 502, 503, 504}` sleeps and retries;
any other status in `[400, 600)` makes `raise_for_status()` raise,
which the `except` clause turns into the same sleep-and-retry; any
remaining status is returned as-is. -/

/-- An HTTP response: status code plus opaque payload. -/
structure Response where
  status : Nat
  body : String
  deriving DecidableEq, Repr

/-- The status codes retried explicitly at line 34. -/
def retryableStatus (s : Nat) : Bool :=
  s == 429 || s == 500 || s == 502 || s == 503 || s == 504

/-- The attempt loop of `eutils_get` over the remaining attempt
indices, threading the count of `backoff_sleep` calls. -/
def eutils_get_go (net : Nat → Option Response) : List Nat → Nat → Option Response × Nat
  | [], sleeps => (none, sleeps)
  | att :: rest, sleeps =>
    match net att with
    | none => eutils_get_go net rest (sleeps + 1)
    | some r =>
      if r.status = 200 then (some r, sleeps)
      else if retryableStatus r.status then eutils_get_go net rest (sleeps + 1)
      else if 400 ≤ r.status ∧ r.status < 600 then eutils_get_go net rest (sleeps + 1)
      else (some r, sleeps)

/-- `eutils_get(url, params, max_attempts)`: the URL/params pair only
parameterises the transport oracle.  Returns the response (or `none`
after exhausting all attempts) and the number of backoff sleeps. -/
def eutils_get (net : Nat → Option Response) (max_attempts : Nat := 6) :
    Option Response × Nat :=
  eutils_get_go net (List.range max_attempts) 0

/-- Transport of the C5 scenario: 503 on attempts 0, 1 and 2, then 200. -/
def threeBusyNet : Nat → Option Response := fun att =>
  if att < 3 then some ⟨503, "busy"⟩ else some ⟨200, "ok"⟩

/-- C5 counterexample: on three 503s followed by a 200, `eutils_get`
returns the 200 response but invokes the backoff sleep three times
(once after each 503), not twice as claimed. -/
theorem eutils_get_three_sleeps_not_two :
    eutils_get threeBusyNet 6 = (some ⟨200, "ok"⟩, 3) ∧ (3 : Nat) ≠ 2 := by
  exact ⟨rfl, by decide⟩

/-- C5 amended: when the transport answers 503 on the first three
attempts and 200 on the fourth (whatever the payloads), `eutils_get`
returns the 200 response and the backoff sleep is invoked exactly
three times — once per failed attempt — before the success. -/
theorem eutils_get_503_503_503_200 (busy ok : String) :
    eutils_get (fun att => if att < 3 then some ⟨503, busy⟩ else some ⟨200, ok⟩) 6 =
      (some ⟨200, ok⟩, 3) := by
  rfl

/-! ## Three-stage extraction pipeline (`claude_extract_multiagent`,
lines 225-392)

Each stage is one blocking call to the reasoning service.  The outcome
of a stage, as the Python code discriminates it, is one of:
`exc` — the call (or the prompt formatting) raised, caught by the
stage's `except` clause; `noPayload` — the call returned but the code
found no matching `tool_use` block, or the block's input was falsy, or
it lacked the stage's result key (`regions` / `projections` /
`classified_projections`); `payload v` — the result key was present
with value `v`.  Stage 2 is a function of stage 1's regions, stage 3
of stage 2's projections. -/

/-- A brain region record from stage 1 (its fields are never inspected
by the pipeline control flow). -/
abbrev Region := String

/-- A projection record.  The classification fields are `Option`
because stage 2's records do not carry them until stage 3 (or the
fallback path at lines 372-376 / 387-391) sets them. -/
structure Projection where
  sender : String
  receiver : String
  quote : String := ""
  method : Option String := none
  method_confidence : Option ℚ := none
  taxon : Option String := none
  taxon_confidence : Option ℚ := none
  deriving DecidableEq, Repr

/-- Outcome of one reasoning-service stage, as discriminated by the code. -/
inductive AgentOutcome (α : Type) where
  | exc : AgentOutcome α
  | noPayload : AgentOutcome α
  | payload : α → AgentOutcome α
  deriving DecidableEq, Repr

/-- The three stage oracles backing one `claude_extract_multiagent` call. -/
structure ClaudeEnv where
  stage1 : AgentOutcome (List Region)
  stage2 : List Region → AgentOutcome (List Projection)
  stage3 : List Projection → AgentOutcome (List Projection)

/-- The in-place mutation at lines 372-376 and 387-391: set the four
classification fields to their "Unspecified"/zero sentinels, keeping
every other field. -/
def setUnspecified (p : Projection) : Projection :=
  { p with method := some "Unspecified", method_confidence := some 0,
           taxon := some "Unspecified", taxon_confidence := some 0 }

/-- `claude_extract_multiagent`: returns the final record list plus
two flags recording whether the stage-2 and stage-3 service calls were
made.  Stage 1 failing or lacking a payload returns `[]` before stage
2 is called; likewise stage 2 before stage 3; a stage-3 failure or
missing payload falls back to stage 2's records with the sentinel
classification fields set. -/
def claude_extract_multiagent (env : ClaudeEnv) : List Projection × Bool × Bool :=
  match env.stage1 with
  | .exc => ([], false, false)
  | .noPayload => ([], false, false)
  | .payload regions =>
    match env.stage2 regions with
    | .exc => ([], true, false)
    | .noPayload => ([], true, false)
    | .payload projections =>
      match env.stage3 projections with
      | .exc => (projections.map setUnspecified, true, true)
      | .noPayload => (projections.map setUnspecified, true, true)
      | .payload classified => (classified, true, true)

/-- Environment refuting C4: stage 1 succeeds with an empty region
list (`{"regions": []}` is a truthy dict containing the key, so the
guard at line 285 does not fire). -/
def emptyRegionsEnv : ClaudeEnv where
  stage1 := .payload []
  stage2 := fun _ => .noPayload
  stage3 := fun _ => .noPayload

/-- C4 counterexample: when stage 1 produces zero entities (a payload
whose region list is empty), the pipeline does NOT short-circuit: the
stage-2 service call is still made. -/
theorem stage1_empty_regions_invokes_stage2 :
    emptyRegionsEnv.stage1 = .payload [] ∧
    (claude_extract_multiagent emptyRegionsEnv).2.1 = true := by
  exact ⟨rfl, rfl⟩

/-- C4 amended: if stage 1 raises, or returns no `RegionExtraction`
tool payload, or a payload lacking the `regions` key, then the
pipeline returns `[]` and neither stage 2 nor stage 3 is invoked; but
a stage-1 payload whose `regions` list is empty does not short-circuit
— stage 2 is still invoked with the empty region list. -/
theorem stage1_no_payload_short_circuits (env : ClaudeEnv)
    (h : env.stage1 = .exc ∨ env.stage1 = .noPayload) :
    claude_extract_multiagent env = ([], false, false) := by
  rcases h with h | h <;> simp [claude_extract_multiagent, h]

/-- Witness for C4's amended theorem at a concrete environment whose
stage 1 raises. -/
theorem stage1_no_payload_short_circuits_witness :
    claude_extract_multiagent
      { stage1 := .exc, stage2 := fun _ => .noPayload, stage3 := fun _ => .noPayload } =
      ([], false, false) :=
  stage1_no_payload_short_circuits
    { stage1 := .exc, stage2 := fun _ => .noPayload, stage3 := fun _ => .noPayload }
    (Or.inl rfl)

/-- C6: if stages 1 and 2 produce payloads and stage 3 raises or
returns no `classified_projections` payload, the pipeline returns
exactly stage 2's records with `method = "Unspecified"`,
`method_confidence = 0.0`, `taxon = "Unspecified"`,
`taxon_confidence = 0.0` set on every record — it neither raises nor
returns empty. -/
theorem stage3_failure_degrades_gracefully (env : ClaudeEnv)
    (regions : List Region) (projections : List Projection)
    (h1 : env.stage1 = .payload regions)
    (h2 : env.stage2 regions = .payload projections)
    (h3 : env.stage3 projections = .exc ∨ env.stage3 projections = .noPayload) :
    (claude_extract_multiagent env).1 = projections.map setUnspecified ∧
    ∀ p ∈ (claude_extract_multiagent env).1,
      p.method = some "Unspecified" ∧ p.method_confidence = some 0 ∧
      p.taxon = some "Unspecified" ∧ p.taxon_confidence = some 0 := by
  have hres : (claude_extract_multiagent env).1 = projections.map setUnspecified := by
    rcases h3 with h3 | h3 <;> simp [claude_extract_multiagent, h1, h2, h3]
  refine ⟨hres, ?_⟩
  rw [hres]
  intro p hp
  obtain ⟨q, _, rfl⟩ := List.mem_map.1 hp
  exact ⟨rfl, rfl, rfl, rfl⟩

/-- Environment for the C6 witness: both extraction stages succeed,
the classifier raises. -/
def stage3FailsEnv : ClaudeEnv where
  stage1 := .payload ["M1"]
  stage2 := fun _ => .payload [{ sender := "M1", receiver := "CPu" }]
  stage3 := fun _ => .exc

/-- Witness for C6 at `stage3FailsEnv`. -/
theorem stage3_failure_degrades_gracefully_witness :
    (claude_extract_multiagent stage3FailsEnv).1 =
      [{ sender := "M1", receiver := "CPu" : Projection }].map setUnspecified ∧
    ∀ p ∈ (claude_extract_multiagent stage3FailsEnv).1,
      p.method = some "Unspecified" ∧ p.method_confidence = some 0 ∧
      p.taxon = some "Unspecified" ∧ p.taxon_confidence = some 0 :=
  stage3_failure_degrades_gracefully stage3FailsEnv ["M1"]
    [{ sender := "M1", receiver := "CPu" }] rfl rfl (Or.inl rfl)

/-! ## CSV row counter (`count_rows`, lines 403-407) and the crawl
driver (`main`, lines 413-564)

The driver's environment bundles the network-facing operations the
loop calls: the paginated id search (a function of the current shard
index and `retstart`), `esummary_details` (mapping a page of ids to
the pmids of its summaries), the text resolver (the `text` field of
`resolve_text_for_pmid`), and the extraction pipeline (`.error` when
`claude_extract_multiagent` raises).  The state mirrors the mutable
state of `main`: `state["current_shard"]`, `state["retstart"]`,
`state["processed_pmids"]`, the process-lifetime `seen_keys` set
(modelled as the list of keys in insertion order, newest first), the
running row count `current_rows`, plus two histories used to state the
claims: the dedup keys of the rows appended to the CSV, in order, and
the log of pmids for which the driver fetched text (the call to
`resolve_text_for_pmid`, which precedes any extraction work). -/

/-- `count_rows(path)`: `max(0, number_of_lines - 1)` when the file
exists, else 0. -/
def count_rows (fileExists : Bool) (numLines : Nat) : Int :=
  if fileExists then max 0 ((numLines : Int) - 1) else 0

/-- The composite dedup key `(pmid, sender, receiver)` of line 528. -/
abbrev Key := String × String × String

/-- Oracles for the network-facing operations of the main loop. -/
structure CrawlEnv where
  esearchIds : Nat → Nat → List String
  summaries : List String → List String
  textOf : String → String
  extract : String → Except Unit (List Projection)
  numShards : Nat

/-- The mutable state of `main`'s loop, plus the output-row and
fetch histories. -/
structure CrawlState where
  currentShard : Nat
  retstart : Nat
  processedPmids : List String
  seenKeys : List Key
  rows : Nat
  outKeys : List Key
  fetchLog : List String
  deriving DecidableEq, Repr

/-- The per-record loop at lines 523-555: for each projection record,
build the dedup key, skip it if already seen, otherwise add it to the
seen set, append the row, bump the row count, and return immediately
(flag `true`) once the count reaches the target. -/
def writeProjs (target : Nat) (pmid : String) :
    List Projection → CrawlState → CrawlState × Bool
  | [], s => (s, false)
  | p :: rest, s =>
    let key : Key := (pmid, p.sender, p.receiver)
    if key ∈ s.seenKeys then
      writeProjs target pmid rest s
    else
      let s' := { s with seenKeys := key :: s.seenKeys,
                         outKeys := s.outKeys ++ [key],
                         rows := s.rows + 1 }
      if target ≤ s'.rows then (s', true)
      else writeProjs target pmid rest s'

/-- The per-document loop at lines 487-558: skip pmids already in
`processed_pmids`; otherwise fetch the text (logged in `fetchLog`); on
empty text or an extraction failure mark the pmid processed and move
on; otherwise write its records, stopping the whole run (flag `true`)
if the row target is reached mid-list, and marking the pmid processed
only when its records were fully handled. -/
def processMetas (env : CrawlEnv) (target : Nat) :
    List String → CrawlState → CrawlState × Bool
  | [], s => (s, false)
  | pmid :: rest, s =>
    if pmid ∈ s.processedPmids then
      processMetas env target rest s
    else
      let s1 := { s with fetchLog := s.fetchLog ++ [pmid] }
      if env.textOf pmid = "" then
        processMetas env target rest { s1 with processedPmids := s1.processedPmids ++ [pmid] }
      else
        match env.extract pmid with
        | .error _ =>
          processMetas env target rest { s1 with processedPmids := s1.processedPmids ++ [pmid] }
        | .ok projs =>
          match writeProjs target pmid projs s1 with
          | (s2, true) => (s2, true)
          | (s2, false) =>
            processMetas env target rest { s2 with processedPmids := s2.processedPmids ++ [pmid] }

/-- The `while current_rows < target_rows and current_shard <
len(shards)` loop at lines 467-562, with a fuel bound on the number of
iterations (the Python loop's termination is not otherwise
guaranteed; every theorem below holds for every fuel, i.e. for every
finite prefix of the run).  An empty id page advances the shard and
resets `retstart`; otherwise the page's summaries are processed and
`retstart` advances by `chunk_size` — unless the row target was
reached mid-page, in which case the function returns on the spot. -/
def runLoop (env : CrawlEnv) (target chunk : Nat) : Nat → CrawlState → CrawlState
  | 0, s => s
  | fuel+1, s =>
    if s.rows < target ∧ s.currentShard < env.numShards then
      if env.esearchIds s.currentShard s.retstart = [] then
        runLoop env target chunk fuel
          { s with currentShard := s.currentShard + 1, retstart := 0 }
      else
        if (processMetas env target
              (env.summaries (env.esearchIds s.currentShard s.retstart)) s).2 then
          (processMetas env target
            (env.summaries (env.esearchIds s.currentShard s.retstart)) s).1
        else
          runLoop env target chunk fuel
            { (processMetas env target
                  (env.summaries (env.esearchIds s.currentShard s.retstart)) s).1 with
              retstart := (processMetas env target
                  (env.summaries (env.esearchIds s.currentShard s.retstart)) s).1.retstart
                + chunk }
    else s

/-- The state `main` starts its loop from: shard index, offset and
processed list come from the (possibly resumed) state file, the row
count from `count_rows`, and the seen-key set, output and fetch
histories are empty. -/
def initState (currentShard retstart : Nat) (processedPmids : List String)
    (initRows : Nat) : CrawlState :=
  { currentShard := currentShard, retstart := retstart,
    processedPmids := processedPmids, seenKeys := [], rows := initRows,
    outKeys := [], fetchLog := [] }

/-- C10: the driver initializes its row counter as
`max(0, number_of_lines - 1)` from the existing output file, and when
that count already meets the target the loop body is never entered:
the run leaves the state — shard index, offset, histories — exactly
as it started, processing no shard. -/
theorem init_rows_at_target_skips_loop (ex : Bool) (numLines : Nat)
    (env : CrawlEnv) (target chunk fuel cs rs : Nat) (ps : List String)
    (h : (target : Int) ≤ count_rows ex numLines) :
    count_rows ex numLines = (if ex then max 0 ((numLines : Int) - 1) else 0) ∧
    runLoop env target chunk fuel (initState cs rs ps (count_rows ex numLines).toNat) =
      initState cs rs ps (count_rows ex numLines).toNat := by
  refine ⟨rfl, ?_⟩
  have hge : ¬ (initState cs rs ps (count_rows ex numLines).toNat).rows < target := by
    simp only [initState]
    omega
  cases fuel with
  | zero => rfl
  | succ n =>
    simp only [runLoop]
    rw [if_neg]
    intro hcond
    exact hge hcond.1

/-- A trivial concrete environment for driver witnesses. -/
def oneDocEnv : CrawlEnv where
  esearchIds := fun _ _ => ["11"]
  summaries := fun ids => ids
  textOf := fun _ => "full text"
  extract := fun _ => .ok [{ sender := "M1", receiver := "CPu" }]
  numShards := 1

/-- Witness for C10: a 5-line output file (4 data rows) against a
target of 3 rows — the run changes nothing. -/
theorem init_rows_at_target_skips_loop_witness :
    count_rows true 5 = (if true then max 0 ((5 : Int) - 1) else 0) ∧
    runLoop oneDocEnv 3 50 4 (initState 0 0 [] (count_rows true 5).toNat) =
      initState 0 0 [] (count_rows true 5).toNat :=
  init_rows_at_target_skips_loop true 5 oneDocEnv 3 50 4 0 0 [] (by decide)

/-- Row-count safety of the per-record loop: starting below the
target, the count never passes the target, and it reaches the target
only when the loop reports the stop flag. -/
theorem writeProjs_rows_le (target : Nat) (pmid : String) :
    ∀ (projs : List Projection) (s : CrawlState), s.rows < target →
      (writeProjs target pmid projs s).1.rows ≤ target ∧
      ((writeProjs target pmid projs s).2 = false →
        (writeProjs target pmid projs s).1.rows < target) := by
  intro projs
  induction projs with
  | nil =>
    intro s hs
    exact ⟨Nat.le_of_lt hs, fun _ => hs⟩
  | cons p rest ih =>
    intro s hs
    simp only [writeProjs]
    by_cases hk : ((pmid, p.sender, p.receiver) : Key) ∈ s.seenKeys
    · simpa [hk] using ih s hs
    · simp only [hk, if_false]
      by_cases ht : target ≤ s.rows + 1
      · simp only [ht, if_true]
        constructor
        · omega
        · intro hfalse
          cases hfalse
      · simp only [ht, if_false]
        exact ih _ (by simpa using by omega)

/-- Each increment of the row counter appends exactly one output row. -/
theorem writeProjs_rows_outKeys (target : Nat) (pmid : String) :
    ∀ (projs : List Projection) (s : CrawlState),
      (writeProjs target pmid projs s).1.rows + s.outKeys.length =
        s.rows + (writeProjs target pmid projs s).1.outKeys.length := by
  intro projs
  induction projs with
  | nil => intro s; rfl
  | cons p rest ih =>
    intro s
    simp only [writeProjs]
    by_cases hk : ((pmid, p.sender, p.receiver) : Key) ∈ s.seenKeys
    · simpa [hk] using ih s
    · simp only [hk, if_false]
      by_cases ht : target ≤ s.rows + 1
      · simp [ht]
        omega
      · simp only [ht, if_false]
        have := ih { s with seenKeys := (pmid, p.sender, p.receiver) :: s.seenKeys,
                            outKeys := s.outKeys ++ [(pmid, p.sender, p.receiver)],
                            rows := s.rows + 1 }
        simp only [List.length_append, List.length_singleton] at this
        omega

/-- Row-count safety of the per-document loop. -/
theorem processMetas_rows_le (env : CrawlEnv) (target : Nat) :
    ∀ (pmids : List String) (s : CrawlState), s.rows < target →
      (processMetas env target pmids s).1.rows ≤ target ∧
      ((processMetas env target pmids s).2 = false →
        (processMetas env target pmids s).1.rows < target) := by
  intro pmids
  induction pmids with
  | nil =>
    intro s hs
    exact ⟨Nat.le_of_lt hs, fun _ => hs⟩
  | cons pmid rest ih =>
    intro s hs
    simp only [processMetas]
    by_cases hp : pmid ∈ s.processedPmids
    · simpa [hp] using ih s hs
    · simp only [hp, if_false]
      by_cases htext : env.textOf pmid = ""
      · simpa [htext] using ih _ (by simpa using hs)
      · simp only [htext, if_false]
        split
        next e heq => exact ih _ (by simpa using hs)
        next projs heq =>
          have hw := writeProjs_rows_le target pmid projs
            { s with fetchLog := s.fetchLog ++ [pmid] } (by simpa using hs)
          split
          next s2 heq2 =>
            rw [heq2] at hw
            exact ⟨hw.1, fun hfalse => by simp at hfalse⟩
          next s2 heq2 =>
            rw [heq2] at hw
            exact ih _ (by simpa using hw.2 rfl)

/-- Per-document loop: each increment of the row counter appends
exactly one output row. -/
theorem processMetas_rows_outKeys (env : CrawlEnv) (target : Nat) :
    ∀ (pmids : List String) (s : CrawlState),
      (processMetas env target pmids s).1.rows + s.outKeys.length =
        s.rows + (processMetas env target pmids s).1.outKeys.length := by
  intro pmids
  induction pmids with
  | nil => intro s; rfl
  | cons pmid rest ih =>
    intro s
    simp only [processMetas]
    by_cases hp : pmid ∈ s.processedPmids
    · simpa [hp] using ih s
    · simp only [hp, if_false]
      by_cases htext : env.textOf pmid = ""
      · simpa [htext] using ih _
      · simp only [htext, if_false]
        split
        next e heq => simpa using ih _
        next projs heq =>
          have hw := writeProjs_rows_outKeys target pmid projs
            { s with fetchLog := s.fetchLog ++ [pmid] }
          split
          next s2 heq2 =>
            rw [heq2] at hw
            simpa using hw
          next s2 heq2 =>
            rw [heq2] at hw
            have h2 := ih { s2 with processedPmids := s2.processedPmids ++ [pmid] }
            simp at hw h2 ⊢
            omega

/-- C8: over any run prefix of the crawl loop, the accumulated row
count never exceeds the larger of its starting value and the target
(the target check runs after every individual record write, so the
run stops the moment the count reaches the target — no further record
from the current page or any later page or shard is written), and
every counted row corresponds to exactly one appended output row. -/
theorem target_reached_stops_writes (env : CrawlEnv) (target chunk fuel : Nat)
    (s : CrawlState) :
    (runLoop env target chunk fuel s).rows ≤ max s.rows target ∧
    (runLoop env target chunk fuel s).rows + s.outKeys.length =
      s.rows + (runLoop env target chunk fuel s).outKeys.length := by
  induction fuel generalizing s with
  | zero => exact ⟨Nat.le_max_left _ _, rfl⟩
  | succ n ih =>
    simp only [runLoop]
    by_cases hcond : s.rows < target ∧ s.currentShard < env.numShards
    · rw [if_pos hcond]
      by_cases hids : env.esearchIds s.currentShard s.retstart = []
      · rw [if_pos hids]
        have := ih { s with currentShard := s.currentShard + 1, retstart := 0 }
        simpa using this
      · rw [if_neg hids]
        have hrows := processMetas_rows_le env target
          (env.summaries (env.esearchIds s.currentShard s.retstart)) s hcond.1
        have hout := processMetas_rows_outKeys env target
          (env.summaries (env.esearchIds s.currentShard s.retstart)) s
        by_cases hflag : (processMetas env target
            (env.summaries (env.esearchIds s.currentShard s.retstart)) s).2 = true
        · rw [if_pos hflag]
          exact ⟨Nat.le_trans hrows.1 (Nat.le_max_right _ _), hout⟩
        · rw [if_neg hflag]
          have h2 : (processMetas env target
              (env.summaries (env.esearchIds s.currentShard s.retstart)) s).2 = false := by
            simpa using hflag
          have hlt := hrows.2 h2
          have hih := ih { (processMetas env target
              (env.summaries (env.esearchIds s.currentShard s.retstart)) s).1 with
            retstart := (processMetas env target
                (env.summaries (env.esearchIds s.currentShard s.retstart)) s).1.retstart
              + chunk }
          simp only [] at hih ⊢
          constructor
          · have h1 := hih.1
            omega
          · have h1 := hih.2
            omega
    · rw [if_neg hcond]
      exact ⟨Nat.le_max_left _ _, rfl⟩

/-- Dedup invariant of the per-record loop: the seen-key set is
exactly the reversed list of written row keys (every newly seen key is
written immediately after being added, line 531-533), and it stays
duplicate-free. -/
theorem writeProjs_seen_eq_outKeys (target : Nat) (pmid : String) :
    ∀ (projs : List Projection) (s : CrawlState),
      s.seenKeys = s.outKeys.reverse → s.seenKeys.Nodup →
      (writeProjs target pmid projs s).1.seenKeys =
        (writeProjs target pmid projs s).1.outKeys.reverse ∧
      (writeProjs target pmid projs s).1.seenKeys.Nodup := by
  intro projs
  induction projs with
  | nil => intro s h1 h2; exact ⟨h1, h2⟩
  | cons p rest ih =>
    intro s h1 h2
    simp only [writeProjs]
    by_cases hk : ((pmid, p.sender, p.receiver) : Key) ∈ s.seenKeys
    · simpa [hk] using ih s h1 h2
    · simp only [hk, if_false]
      have h1' : ((pmid, p.sender, p.receiver) : Key) :: s.seenKeys =
          (s.outKeys ++ [((pmid, p.sender, p.receiver) : Key)]).reverse := by
        simp [h1]
      have h2' : (((pmid, p.sender, p.receiver) : Key) :: s.seenKeys).Nodup :=
        List.nodup_cons.2 ⟨hk, h2⟩
      by_cases ht : target ≤ s.rows + 1
      · simp only [ht, if_true]
        exact ⟨h1', h2'⟩
      · simp only [ht, if_false]
        exact ih _ h1' h2'

/-- The per-document loop preserves the dedup invariant. -/
theorem processMetas_seen_eq_outKeys (env : CrawlEnv) (target : Nat) :
    ∀ (pmids : List String) (s : CrawlState),
      s.seenKeys = s.outKeys.reverse → s.seenKeys.Nodup →
      (processMetas env target pmids s).1.seenKeys =
        (processMetas env target pmids s).1.outKeys.reverse ∧
      (processMetas env target pmids s).1.seenKeys.Nodup := by
  intro pmids
  induction pmids with
  | nil => intro s h1 h2; exact ⟨h1, h2⟩
  | cons pmid rest ih =>
    intro s h1 h2
    simp only [processMetas]
    by_cases hp : pmid ∈ s.processedPmids
    · simpa [hp] using ih s h1 h2
    · simp only [hp, if_false]
      by_cases htext : env.textOf pmid = ""
      · rw [if_pos htext]
        exact ih { s with processedPmids := s.processedPmids ++ [pmid],
                          fetchLog := s.fetchLog ++ [pmid] } h1 h2
      · simp only [htext, if_false]
        split
        next e heq => exact ih _ h1 h2
        next projs heq =>
          have hw := writeProjs_seen_eq_outKeys target pmid projs
            { s with fetchLog := s.fetchLog ++ [pmid] } h1 h2
          split
          next s2 heq2 =>
            rw [heq2] at hw
            exact hw
          next s2 heq2 =>
            rw [heq2] at hw
            exact ih _ hw.1 hw.2

/-- The crawl loop preserves the dedup invariant. -/
theorem runLoop_seen_eq_outKeys (env : CrawlEnv) (target chunk : Nat) :
    ∀ (fuel : Nat) (s : CrawlState),
      s.seenKeys = s.outKeys.reverse → s.seenKeys.Nodup →
      (runLoop env target chunk fuel s).seenKeys =
        (runLoop env target chunk fuel s).outKeys.reverse ∧
      (runLoop env target chunk fuel s).seenKeys.Nodup := by
  intro fuel
  induction fuel with
  | zero => intro s h1 h2; exact ⟨h1, h2⟩
  | succ n ih =>
    intro s h1 h2
    simp only [runLoop]
    by_cases hcond : s.rows < target ∧ s.currentShard < env.numShards
    · rw [if_pos hcond]
      by_cases hids : env.esearchIds s.currentShard s.retstart = []
      · rw [if_pos hids]
        exact ih _ h1 h2
      · rw [if_neg hids]
        have hpm := processMetas_seen_eq_outKeys env target
          (env.summaries (env.esearchIds s.currentShard s.retstart)) s h1 h2
        by_cases hflag : (processMetas env target
            (env.summaries (env.esearchIds s.currentShard s.retstart)) s).2 = true
        · rw [if_pos hflag]
          exact hpm
        · rw [if_neg hflag]
          exact ih _ hpm.1 hpm.2
    · rw [if_neg hcond]
      exact ⟨h1, h2⟩

/-- C7: in every run of the crawl driver (any environment, target,
chunk size, resumed shard/offset/processed list, initial row count and
fuel), the keys of the rows appended to the CSV are pairwise distinct
— a `(document_id, sender, receiver)` triple occurring several times
yields exactly one output row — and the process-lifetime seen-set is
precisely the set of keys already written, which is the mechanism that
skips the later occurrences. -/
theorem dedup_exactly_one_row (env : CrawlEnv) (target chunk fuel cs rs : Nat)
    (ps : List String) (initRows : Nat) :
    ((runLoop env target chunk fuel (initState cs rs ps initRows)).outKeys).Nodup ∧
    (runLoop env target chunk fuel (initState cs rs ps initRows)).seenKeys =
      (runLoop env target chunk fuel (initState cs rs ps initRows)).outKeys.reverse := by
  have h := runLoop_seen_eq_outKeys env target chunk fuel
    (initState cs rs ps initRows) rfl List.nodup_nil
  refine ⟨?_, h.1⟩
  have := h.2
  rw [h.1] at this
  exact List.nodup_reverse.1 this

/-- The per-record loop never touches the processed list or the fetch
log. -/
theorem writeProjs_fetch_fixed (target : Nat) (pmid : String) :
    ∀ (projs : List Projection) (s : CrawlState),
      (writeProjs target pmid projs s).1.processedPmids = s.processedPmids ∧
      (writeProjs target pmid projs s).1.fetchLog = s.fetchLog := by
  intro projs
  induction projs with
  | nil => intro s; exact ⟨rfl, rfl⟩
  | cons p rest ih =>
    intro s
    simp only [writeProjs]
    by_cases hk : ((pmid, p.sender, p.receiver) : Key) ∈ s.seenKeys
    · simpa [hk] using ih s
    · simp only [hk, if_false]
      by_cases ht : target ≤ s.rows + 1
      · simp [ht]
      · simp only [ht, if_false]
        exact ih _

/-- An identifier in the processed list at page start stays processed
and is never fetched while the page is handled. -/
theorem processMetas_no_refetch (env : CrawlEnv) (target : Nat) (p : String) :
    ∀ (pmids : List String) (s : CrawlState),
      p ∈ s.processedPmids → p ∉ s.fetchLog →
      p ∈ (processMetas env target pmids s).1.processedPmids ∧
      p ∉ (processMetas env target pmids s).1.fetchLog := by
  intro pmids
  induction pmids with
  | nil => intro s h1 h2; exact ⟨h1, h2⟩
  | cons pmid rest ih =>
    intro s h1 h2
    simp only [processMetas]
    by_cases hp : pmid ∈ s.processedPmids
    · simpa [hp] using ih s h1 h2
    · simp only [hp, if_false]
      have hne : p ≠ pmid := fun h => hp (h ▸ h1)
      have h2' : p ∉ s.fetchLog ++ [pmid] := by
        simp only [List.mem_append, List.mem_singleton]
        rintro (h | h)
        exacts [h2 h, hne h]
      by_cases htext : env.textOf pmid = ""
      · rw [if_pos htext]
        exact ih { s with processedPmids := s.processedPmids ++ [pmid],
                          fetchLog := s.fetchLog ++ [pmid] }
          (List.mem_append_left _ h1) h2'
      · simp only [htext, if_false]
        split
        next e heq =>
          exact ih { s with processedPmids := s.processedPmids ++ [pmid],
                            fetchLog := s.fetchLog ++ [pmid] }
            (List.mem_append_left _ h1) h2'
        next projs heq =>
          have hw := writeProjs_fetch_fixed target pmid projs
            { s with fetchLog := s.fetchLog ++ [pmid] }
          split
          next s2 heq2 =>
            rw [heq2] at hw
            simp only at hw
            constructor
            · rw [hw.1]; exact h1
            · rw [hw.2]; exact h2'
          next s2 heq2 =>
            rw [heq2] at hw
            simp only at hw
            refine ih _ ?_ ?_
            · simp only []
              rw [hw.1]
              exact List.mem_append_left _ h1
            · simp only []
              rw [hw.2]
              exact h2'

/-- The crawl loop never fetches an identifier that entered it in the
processed list. -/
theorem runLoop_no_refetch (env : CrawlEnv) (target chunk : Nat) (p : String) :
    ∀ (fuel : Nat) (s : CrawlState),
      p ∈ s.processedPmids → p ∉ s.fetchLog →
      p ∈ (runLoop env target chunk fuel s).processedPmids ∧
      p ∉ (runLoop env target chunk fuel s).fetchLog := by
  intro fuel
  induction fuel with
  | zero => intro s h1 h2; exact ⟨h1, h2⟩
  | succ n ih =>
    intro s h1 h2
    simp only [runLoop]
    by_cases hcond : s.rows < target ∧ s.currentShard < env.numShards
    · rw [if_pos hcond]
      by_cases hids : env.esearchIds s.currentShard s.retstart = []
      · rw [if_pos hids]
        exact ih _ h1 h2
      · rw [if_neg hids]
        have hpm := processMetas_no_refetch env target p
          (env.summaries (env.esearchIds s.currentShard s.retstart)) s h1 h2
        by_cases hflag : (processMetas env target
            (env.summaries (env.esearchIds s.currentShard s.retstart)) s).2 = true
        · rw [if_pos hflag]
          exact hpm
        · rw [if_neg hflag]
          exact ih _ hpm.1 hpm.2
    · rw [if_neg hcond]
      exact ⟨h1, h2⟩

/-- C9: an identifier present in the `processed_pmids` list of a
resumed crawl state is never fetched again: over any run of the crawl
loop, its text is never resolved (and hence the extraction pipeline is
never re-run on it, since extraction only happens after the fetch) —
it is skipped before any per-document work starts. -/
theorem processed_pmid_never_refetched (env : CrawlEnv) (target chunk fuel cs rs : Nat)
    (ps : List String) (initRows : Nat) (p : String) (hp : p ∈ ps) :
    p ∉ (runLoop env target chunk fuel (initState cs rs ps initRows)).fetchLog :=
  (runLoop_no_refetch env target chunk p fuel (initState cs rs ps initRows) hp
    (by simp [initState])).2

/-- Witness for C9: the resumed state lists pmid "11" as processed;
running `oneDocEnv` (whose every page returns "11") never fetches it. -/
theorem processed_pmid_never_refetched_witness :
    "11" ∉ (runLoop oneDocEnv 3 50 4 (initState 0 0 ["11"] 0)).fetchLog :=
  processed_pmid_never_refetched oneDocEnv 3 50 4 0 0 ["11"] 0 "11" (by simp)

end BifExtraction
